import Mathlib

/-!
Shallow embedding of the `umask` crate (src/src/mode.rs).

A `Mode` wraps a single `u32`; we model `u32` values as `Nat` (with explicit
bounds where the 32-bit width matters) and Rust's bitwise complement `!v` on
`u32` as `0xFFFFFFFF ^^^ v`.  The `Display` implementation, which writes nine
characters one by one, is modelled as a function producing a `List Char`; a
Rust string is modelled as its list of characters.  `Mode::parse` iterates
over `s.chars().enumerate()`: the iterator is modelled as the pair (remaining
characters, current position), and the straight-line body with early returns
is modelled as a chain of step functions, one per consumed character.
-/

namespace Umask

/-- Rust `pub type Class = u32;`. -/
abbrev Class := Nat
/-- Rust `pub type Permission = u32;`. -/
abbrev Permission := Nat
/-- Rust `pub type ExtraPermission = u32;`. -/
abbrev ExtraPermission := Nat

def EXTRA : Class := 0b111000000000
def USER : Class := 0b111000000
def GROUP : Class := 0b000111000
def OTHERS : Class := 0b000000111
def ALL : Class := 0b111111111

def READ : Permission := 0b100100100
def WRITE : Permission := 0b010010010
def EXEC : Permission := 0b001001001

def STICKY : ExtraPermission := 0o1000
def SETGID : ExtraPermission := 0o2000
def SETUID : ExtraPermission := 0o4000

/-- Rust's bitwise complement on a `u32` value. -/
def u32_not (v : Nat) : Nat := 0xFFFFFFFF ^^^ v

structure Mode where
  value : Nat
deriving DecidableEq

/-- Source `Mode::new()`. -/
def Mode.new : Mode := ⟨0⟩

/-- Source `Mode::all()`. -/
def Mode.all : Mode := ⟨0b111111111⟩

/-- Source `impl From<u32> for Mode`. -/
def Mode.ofU32 (value : Nat) : Mode := ⟨value⟩

/-- Source `impl From<Mode> for u32`. -/
def Mode.toU32 (m : Mode) : Nat := m.value

/-- Source `impl BitAnd for Mode`. -/
def Mode.bitand (m other : Mode) : Mode := ⟨m.value &&& other.value⟩

/-- Source `impl BitAndAssign for Mode` (the receiver's final value). -/
def Mode.bitand_assign (m other : Mode) : Mode := ⟨m.value &&& other.value⟩

/-- Source `impl BitOr for Mode`. -/
def Mode.bitor (m other : Mode) : Mode := ⟨m.value ||| other.value⟩

/-- Source `impl BitOrAssign for Mode` (the receiver's final value). -/
def Mode.bitor_assign (m other : Mode) : Mode := ⟨m.value ||| other.value⟩

/-- Source `impl Not for Mode`. -/
def Mode.not (m : Mode) : Mode := ⟨u32_not m.value⟩

instance : AndOp Mode := ⟨Mode.bitand⟩
instance : OrOp Mode := ⟨Mode.bitor⟩
instance : Complement Mode := ⟨Mode.not⟩

/-- Source `Mode::is_exe`. -/
def Mode.is_exe (m : Mode) : Bool := m.value &&& 0o111 != 0

/-- Source `Mode::has`. -/
def Mode.has (m other : Mode) : Bool := m.value &&& other.value == other.value

/-- Source `Mode::has_extra`. -/
def Mode.has_extra (m : Mode) (other : ExtraPermission) : Bool :=
  m.value &&& other == other

/-- Source `Mode::with_extra`. -/
def Mode.with_extra (m : Mode) (perm : ExtraPermission) : Mode :=
  ⟨m.value ||| perm⟩

/-- Source `Mode::without_extra`. -/
def Mode.without_extra (m : Mode) (perm : ExtraPermission) : Mode :=
  ⟨m.value &&& u32_not perm⟩

/-- Source `Mode::without_any_extra`. -/
def Mode.without_any_extra (m : Mode) : Mode :=
  ⟨m.value &&& u32_not EXTRA⟩

/-- Source `Mode::with_class_perm`. -/
def Mode.with_class_perm (m : Mode) (cls : Class) (perm : Permission) : Mode :=
  ⟨m.value ||| (cls &&& perm)⟩

/-- Source `Mode::without_class_perm`. -/
def Mode.without_class_perm (m : Mode) (cls : Class) (perm : Permission) : Mode :=
  ⟨m.value &&& u32_not (cls &&& perm)⟩

/-- Source `Mode::with`. -/
def Mode.with (m other : Mode) : Mode := ⟨m.value ||| other.value⟩

/-- Source `Mode::without`. -/
def Mode.without (m other : Mode) : Mode := ⟨m.value &&& u32_not other.value⟩

def USER_READ : Mode := Mode.new.with_class_perm USER READ
def USER_WRITE : Mode := Mode.new.with_class_perm USER WRITE
def USER_EXEC : Mode := Mode.new.with_class_perm USER EXEC
def GROUP_READ : Mode := Mode.new.with_class_perm GROUP READ
def GROUP_WRITE : Mode := Mode.new.with_class_perm GROUP WRITE
def GROUP_EXEC : Mode := Mode.new.with_class_perm GROUP EXEC
def OTHERS_READ : Mode := Mode.new.with_class_perm OTHERS READ
def OTHERS_WRITE : Mode := Mode.new.with_class_perm OTHERS WRITE
def OTHERS_EXEC : Mode := Mode.new.with_class_perm OTHERS EXEC
def ALL_READ : Mode := Mode.new.with_class_perm ALL READ
def ALL_WRITE : Mode := Mode.new.with_class_perm ALL WRITE
def ALL_EXEC : Mode := Mode.new.with_class_perm ALL EXEC

/-- Source `impl Display for Mode`: the nine characters written by `fmt`, in order. -/
def Mode.fmt (m : Mode) : List Char :=
  [ if m.has USER_READ then 'r' else '-',
    if m.has USER_WRITE then 'w' else '-',
    if m.has_extra SETUID && m.has USER_EXEC then 's'
      else if m.has_extra SETUID then 'S'
      else if m.has USER_EXEC then 'x'
      else '-',
    if m.has GROUP_READ then 'r' else '-',
    if m.has GROUP_WRITE then 'w' else '-',
    if m.has_extra SETGID && m.has GROUP_EXEC then 's'
      else if m.has_extra SETGID then 'S'
      else if m.has GROUP_EXEC then 'x'
      else '-',
    if m.has OTHERS_READ then 'r' else '-',
    if m.has OTHERS_WRITE then 'w' else '-',
    if m.has_extra STICKY && m.has OTHERS_EXEC then 't'
      else if m.has_extra STICKY then 'T'
      else if m.has OTHERS_EXEC then 'x'
      else '-' ]

/-- Source `ParseError`. -/
inductive ParseError where
  | InvalidChar (c : Char) (pos : Nat)
  | NotEnoughInput
  | TrailingCharacters
deriving DecidableEq

deriving instance DecidableEq for Except

/-- The inner `expect_single` helper of `Mode::parse`.  The enumerate
iterator is the pair (remaining characters, position of the next one). -/
def expect_single (chars : List Char) (pos : Nat) (n : Char) (m : Mode) :
    Except ParseError (Mode × List Char × Nat) :=
  match chars with
  | c :: rest =>
    if c = n then .ok (m, rest, pos + 1)
    else if c = '-' then .ok (Mode.new, rest, pos + 1)
    else .error (.InvalidChar c pos)
  | [] => .error .NotEnoughInput

/-- Models one `result |= expect_single(&mut i, n, m)?;` statement of `Mode::parse`,
continued by the rest of the body. -/
def step_single (n : Char) (md : Mode)
    (next : Mode → List Char → Nat → Except ParseError Mode)
    (result : Mode) (chars : List Char) (pos : Nat) : Except ParseError Mode :=
  match expect_single chars pos n md with
  | .ok (m, rest, pos2) => next (result ||| m) rest pos2
  | .error e => .error e

/-- Models one of the three `match i.next()` statements of `Mode::parse` handling an
exec-or-special cell, continued by the rest of the body.  The match arms are
tried in source order. -/
def step_special (low up : Char) (extra : ExtraPermission) (exe : Mode)
    (next : Mode → List Char → Nat → Except ParseError Mode)
    (result : Mode) (chars : List Char) (pos : Nat) : Except ParseError Mode :=
  match chars with
  | c :: rest =>
    if c = low then next (result ||| (Mode.ofU32 extra ||| exe)) rest (pos + 1)
    else if c = up then next (result ||| Mode.ofU32 extra) rest (pos + 1)
    else if c = 'x' then next (result ||| exe) rest (pos + 1)
    else if c = '-' then next result rest (pos + 1)
    else .error (.InvalidChar c pos)
  | [] => .error .NotEnoughInput

/-- Models the final check that the iterator is exhausted: returns the result when no characters remain, else the trailing-characters error. -/
def parse_end (result : Mode) (chars : List Char) (_ : Nat) :
    Except ParseError Mode :=
  match chars with
  | [] => .ok result
  | _ => .error .TrailingCharacters

def parse_ox := step_special 't' 'T' STICKY OTHERS_EXEC parse_end
def parse_ow := step_single 'w' OTHERS_WRITE parse_ox
def parse_or := step_single 'r' OTHERS_READ parse_ow
def parse_gx := step_special 's' 'S' SETGID GROUP_EXEC parse_or
def parse_gw := step_single 'w' GROUP_WRITE parse_gx
def parse_gr := step_single 'r' GROUP_READ parse_gw
def parse_ux := step_special 's' 'S' SETUID USER_EXEC parse_gr
def parse_uw := step_single 'w' USER_WRITE parse_ux
def parse_ur := step_single 'r' USER_READ parse_uw

/-- Source `Mode::parse`, on the character list of the input string. -/
def Mode.parse (l : List Char) : Except ParseError Mode :=
  parse_ur Mode.new l 0

/-- Characterization target for the staged parser: a stage needing `n` more
characters either succeeds on exactly `n` remaining characters with a result
within the 12 permission bits, or fails with an invalid character it actually
read, or runs out of input on fewer than `n` characters, or reports trailing
characters on more than `n`. -/
def StageSpec (n : Nat) (f : Mode → List Char → Nat → Except ParseError Mode) : Prop :=
  ∀ (r : Mode) (chars : List Char) (pos : Nat), r.value < 4096 →
    (∃ m, f r chars pos = .ok m ∧ m.value < 4096 ∧ chars.length = n) ∨
    (∃ c j, j < n ∧ f r chars pos = .error (.InvalidChar c (pos + j)) ∧
      chars[j]? = some c) ∨
    (f r chars pos = .error .NotEnoughInput ∧ chars.length < n) ∨
    (f r chars pos = .error .TrailingCharacters ∧ n < chars.length)

/-! Helper lemmas. -/

theorem lor_lt_4096 {a b : Nat} (ha : a < 4096) (hb : b < 4096) :
    a ||| b < 4096 := by
  have h : (4096 : Nat) = 2 ^ 12 := by norm_num
  rw [h] at ha hb ⊢
  exact Nat.or_lt_two_pow ha hb

theorem mode_lor_lt (a b : Mode) (ha : a.value < 4096) (hb : b.value < 4096) :
    (a ||| b).value < 4096 :=
  lor_lt_4096 ha hb

theorem testBit_mod_pow (k v i : Nat) (hi : i < k) :
    (v % 2 ^ k).testBit i = v.testBit i := by
  simp [Nat.testBit_mod_two_pow, hi]

theorem land_congr_pow (k : Nat) {v w : Nat} (c : Nat)
    (h : v % 2 ^ k = w % 2 ^ k) (hc : c < 2 ^ k) : v &&& c = w &&& c := by
  apply Nat.eq_of_testBit_eq
  intro i
  rw [Nat.testBit_and, Nat.testBit_and]
  by_cases hi : i < k
  · rw [← testBit_mod_pow k v i hi, ← testBit_mod_pow k w i hi, h]
  · have hcb : c.testBit i = false :=
      Nat.testBit_lt_two_pow
        (lt_of_lt_of_le hc (Nat.pow_le_pow_right (by norm_num) (by omega)))
    simp [hcb]

theorem land_congr_4096 {v w : Nat} (c : Nat) (h : v % 4096 = w % 4096)
    (hc : c < 4096) : v &&& c = w &&& c := by
  have e : (4096 : Nat) = 2 ^ 12 := by norm_num
  rw [e] at h hc
  exact land_congr_pow 12 c h hc

theorem has_congr {m1 m2 : Mode} (h : m1.value % 4096 = m2.value % 4096)
    (x : Mode) (hx : x.value < 4096) : m1.has x = m2.has x := by
  unfold Mode.has
  rw [land_congr_4096 x.value h hx]

theorem has_extra_congr {m1 m2 : Mode} (h : m1.value % 4096 = m2.value % 4096)
    (e : ExtraPermission) (he : e < 4096) : m1.has_extra e = m2.has_extra e := by
  unfold Mode.has_extra
  rw [land_congr_4096 e h he]

theorem is_exe_congr {m1 m2 : Mode} (h : m1.value % 4096 = m2.value % 4096) :
    m1.is_exe = m2.is_exe := by
  unfold Mode.is_exe
  rw [land_congr_4096 0o111 h (by norm_num)]

theorem fmt_congr {m1 m2 : Mode} (h : m1.value % 4096 = m2.value % 4096) :
    m1.fmt = m2.fmt := by
  unfold Mode.fmt
  rw [has_congr h USER_READ (by decide), has_congr h USER_WRITE (by decide),
    has_congr h USER_EXEC (by decide), has_congr h GROUP_READ (by decide),
    has_congr h GROUP_WRITE (by decide), has_congr h GROUP_EXEC (by decide),
    has_congr h OTHERS_READ (by decide), has_congr h OTHERS_WRITE (by decide),
    has_congr h OTHERS_EXEC (by decide), has_extra_congr h SETUID (by decide),
    has_extra_congr h SETGID (by decide), has_extra_congr h STICKY (by decide)]

theorem has_testBit (m x : Mode) (i : Nat) (hx : x.value = 2 ^ i) :
    m.has x = m.value.testBit i := by
  unfold Mode.has
  rw [hx, Nat.and_two_pow]
  cases h : m.value.testBit i
  · simp [h, (Nat.two_pow_pos i).ne]
  · simp [h]

theorem has_extra_testBit (m : Mode) (e : ExtraPermission) (i : Nat)
    (he : e = 2 ^ i) : m.has_extra e = m.value.testBit i := by
  unfold Mode.has_extra
  rw [he, Nat.and_two_pow]
  cases h : m.value.testBit i
  · simp [h, (Nat.two_pow_pos i).ne]
  · simp [h]

/-! Stage lemmas for the parser. -/

theorem stageSpec_end : StageSpec 0 parse_end := by
  intro r chars pos hr
  cases chars with
  | nil => exact Or.inl ⟨r, rfl, hr, rfl⟩
  | cons c t =>
    refine Or.inr (Or.inr (Or.inr ⟨rfl, ?_⟩))
    simp

theorem stage_cont (next : Mode → List Char → Nat → Except ParseError Mode)
    (k : Nat) (hnext : StageSpec k next) (r2 : Mode) (rest : List Char)
    (pos : Nat) (hr2 : r2.value < 4096) (g : Except ParseError Mode)
    (hg : g = next r2 rest (pos + 1)) (c : Char) :
    (∃ m, g = .ok m ∧ m.value < 4096 ∧ (c :: rest).length = k + 1) ∨
    (∃ c2 j, j < k + 1 ∧ g = .error (.InvalidChar c2 (pos + j)) ∧
      (c :: rest)[j]? = some c2) ∨
    (g = .error .NotEnoughInput ∧ (c :: rest).length < k + 1) ∨
    (g = .error .TrailingCharacters ∧ k + 1 < (c :: rest).length) := by
  subst hg
  rcases hnext r2 rest (pos + 1) hr2 with
    ⟨m, hok, hm, hlen⟩ | ⟨c2, j, hj, herr, hget⟩ | ⟨herr, hlen⟩ | ⟨herr, hlen⟩
  · exact Or.inl ⟨m, hok, hm, by simp [hlen]⟩
  · refine Or.inr (Or.inl ⟨c2, j + 1, by omega, ?_, by simpa using hget⟩)
    rw [herr]
    have hpos : pos + 1 + j = pos + (j + 1) := by omega
    rw [hpos]
  · exact Or.inr (Or.inr (Or.inl ⟨herr, by simp only [List.length_cons]; omega⟩))
  · exact Or.inr (Or.inr (Or.inr ⟨herr, by simp only [List.length_cons]; omega⟩))

theorem stageSpec_single (n : Char) (md : Mode) (hmd : md.value < 4096)
    (next : Mode → List Char → Nat → Except ParseError Mode) (k : Nat)
    (hnext : StageSpec k next) : StageSpec (k + 1) (step_single n md next) := by
  intro r chars pos hr
  cases chars with
  | nil =>
    refine Or.inr (Or.inr (Or.inl ⟨rfl, ?_⟩))
    simp
  | cons c rest =>
    by_cases hcn : c = n
    · exact stage_cont next k hnext (r ||| md) rest pos
        (mode_lor_lt r md hr hmd) _ (by simp [step_single, expect_single, hcn]) c
    · by_cases hcd : c = '-'
      · exact stage_cont next k hnext (r ||| Mode.new) rest pos
          (mode_lor_lt r Mode.new hr (by decide)) _
          (by simp only [step_single, expect_single]; rw [if_neg hcn, if_pos hcd]) c
      · refine Or.inr (Or.inl ⟨c, 0, by omega, ?_, by simp⟩)
        simp [step_single, expect_single, hcn, hcd]

theorem stageSpec_special (low up : Char) (extra : ExtraPermission) (exe : Mode)
    (hextra : extra < 4096) (hexe : exe.value < 4096)
    (next : Mode → List Char → Nat → Except ParseError Mode) (k : Nat)
    (hnext : StageSpec k next) :
    StageSpec (k + 1) (step_special low up extra exe next) := by
  intro r chars pos hr
  cases chars with
  | nil =>
    refine Or.inr (Or.inr (Or.inl ⟨rfl, ?_⟩))
    simp
  | cons c rest =>
    by_cases h1 : c = low
    · exact stage_cont next k hnext (r ||| (Mode.ofU32 extra ||| exe)) rest pos
        (mode_lor_lt _ _ hr (mode_lor_lt _ _ hextra hexe)) _
        (by simp [step_special, h1]) c
    · by_cases h2 : c = up
      · exact stage_cont next k hnext (r ||| Mode.ofU32 extra) rest pos
          (mode_lor_lt _ _ hr hextra) _
          (by simp only [step_special]; rw [if_neg h1, if_pos h2]) c
      · by_cases h3 : c = 'x'
        · exact stage_cont next k hnext (r ||| exe) rest pos
            (mode_lor_lt _ _ hr hexe) _
            (by simp only [step_special]; rw [if_neg h1, if_neg h2, if_pos h3]) c
        · by_cases h4 : c = '-'
          · exact stage_cont next k hnext r rest pos hr _
              (by simp only [step_special]; rw [if_neg h1, if_neg h2, if_neg h3, if_pos h4]) c
          · refine Or.inr (Or.inl ⟨c, 0, by omega, ?_, by simp⟩)
            simp [step_special, h1, h2, h3, h4]

theorem parse_ur_spec : StageSpec 9 parse_ur := by
  have h1 : StageSpec 1 parse_ox :=
    stageSpec_special 't' 'T' STICKY OTHERS_EXEC (by decide) (by decide)
      parse_end 0 stageSpec_end
  have h2 : StageSpec 2 parse_ow :=
    stageSpec_single 'w' OTHERS_WRITE (by decide) parse_ox 1 h1
  have h3 : StageSpec 3 parse_or :=
    stageSpec_single 'r' OTHERS_READ (by decide) parse_ow 2 h2
  have h4 : StageSpec 4 parse_gx :=
    stageSpec_special 's' 'S' SETGID GROUP_EXEC (by decide) (by decide)
      parse_or 3 h3
  have h5 : StageSpec 5 parse_gw :=
    stageSpec_single 'w' GROUP_WRITE (by decide) parse_gx 4 h4
  have h6 : StageSpec 6 parse_gr :=
    stageSpec_single 'r' GROUP_READ (by decide) parse_gw 5 h5
  have h7 : StageSpec 7 parse_ux :=
    stageSpec_special 's' 'S' SETUID USER_EXEC (by decide) (by decide)
      parse_gr 6 h6
  have h8 : StageSpec 8 parse_uw :=
    stageSpec_single 'w' USER_WRITE (by decide) parse_ux 7 h7
  exact stageSpec_single 'r' USER_READ (by decide) parse_uw 8 h8

theorem u32_not_testBit (x : Nat) (hx : x < 2 ^ 32) (i : Nat) :
    (u32_not x).testBit i = (decide (i < 32) && !(x.testBit i)) := by
  unfold u32_not
  rw [Nat.testBit_xor]
  have h1 : (0xFFFFFFFF : Nat) = 2 ^ 32 - 1 := by norm_num
  rw [h1, Nat.testBit_two_pow_sub_one]
  by_cases hi : i < 32
  · simp [hi]
  · have hxb : x.testBit i = false :=
      Nat.testBit_lt_two_pow
        (lt_of_lt_of_le hx (Nat.pow_le_pow_right (by norm_num) (by omega)))
    simp [hi, hxb]

/-! Claim theorems. -/

/-- C2.  Parse error model: for every input, `parse` either succeeds or fails
with exactly one of the three error kinds; an invalid-character error carries
the offending character together with its zero-based position in the input,
a not-enough-input error implies fewer than 9 characters, and a
trailing-characters error implies more than 9 characters; in particular
parsing "xw-r--r---" fails with invalid character x at position 0. -/
theorem parse_error_model :
    (∀ l : List Char,
      (∃ m, Mode.parse l = .ok m) ∨
      (∃ c p, Mode.parse l = .error (.InvalidChar c p) ∧ l[p]? = some c) ∨
      (Mode.parse l = .error .NotEnoughInput ∧ l.length < 9) ∨
      (Mode.parse l = .error .TrailingCharacters ∧ 9 < l.length)) ∧
    Mode.parse ("xw-r--r---".toList) = .error (.InvalidChar 'x' 0) := by
  refine ⟨?_, by decide⟩
  intro l
  rcases parse_ur_spec Mode.new l 0 (by decide) with
    ⟨m, hok, _, _⟩ | ⟨c, j, hj, herr, hget⟩ | ⟨herr, hlen⟩ | ⟨herr, hlen⟩
  · exact Or.inl ⟨m, hok⟩
  · refine Or.inr (Or.inl ⟨c, j, ?_, hget⟩)
    simpa using herr
  · exact Or.inr (Or.inr (Or.inl ⟨herr, hlen⟩))
  · exact Or.inr (Or.inr (Or.inr ⟨herr, hlen⟩))

/-- C3.  Display formatting: the nine characters, in order user-read,
user-write, user-exec-or-special, group-read, group-write,
group-exec-or-special, others-read, others-write, others-exec-or-special,
with r or w or dash for the read and write cells, and s, S, x or dash
(t, T, x or dash for others) for the exec-or-special cells according to
the extra and exec bits; the
all-plus-extras mode formats as "rwsrwsrwt", and with the three exec bits
removed by AND as "rwSrwSrwT". -/
theorem display_formatting :
    (∀ m : Mode, m.fmt =
      [ if m.value.testBit 8 then 'r' else '-',
        if m.value.testBit 7 then 'w' else '-',
        if m.value.testBit 11 && m.value.testBit 6 then 's'
          else if m.value.testBit 11 then 'S'
          else if m.value.testBit 6 then 'x'
          else '-',
        if m.value.testBit 5 then 'r' else '-',
        if m.value.testBit 4 then 'w' else '-',
        if m.value.testBit 10 && m.value.testBit 3 then 's'
          else if m.value.testBit 10 then 'S'
          else if m.value.testBit 3 then 'x'
          else '-',
        if m.value.testBit 2 then 'r' else '-',
        if m.value.testBit 1 then 'w' else '-',
        if m.value.testBit 9 && m.value.testBit 0 then 't'
          else if m.value.testBit 9 then 'T'
          else if m.value.testBit 0 then 'x'
          else '-' ]) ∧
    (((Mode.all.with_extra STICKY).with_extra SETUID).with_extra SETGID).fmt
      = "rwsrwsrwt".toList ∧
    ((((Mode.all.with_extra STICKY).with_extra SETUID).with_extra SETGID).bitand_assign
      (Mode.not (Mode.ofU32 EXEC))).fmt = "rwSrwSrwT".toList := by
  refine ⟨?_, by decide, by decide⟩
  intro m
  unfold Mode.fmt
  rw [has_testBit m USER_READ 8 (by decide), has_testBit m USER_WRITE 7 (by decide),
    has_testBit m USER_EXEC 6 (by decide), has_testBit m GROUP_READ 5 (by decide),
    has_testBit m GROUP_WRITE 4 (by decide), has_testBit m GROUP_EXEC 3 (by decide),
    has_testBit m OTHERS_READ 2 (by decide), has_testBit m OTHERS_WRITE 1 (by decide),
    has_testBit m OTHERS_EXEC 0 (by decide), has_extra_testBit m SETUID 11 (by decide),
    has_extra_testBit m SETGID 10 (by decide), has_extra_testBit m STICKY 9 (by decide)]

/-- C4.  Containment: `m.has x` is true iff every bit set in `x` is set in
`m`; hence `has` is reflexive and every mode has the empty mode. -/
theorem has_containment :
    (∀ m x : Mode, m.has x = true ↔
      (∀ i, x.value.testBit i = true → m.value.testBit i = true)) ∧
    (∀ m : Mode, m.has m = true) ∧ (∀ m : Mode, m.has Mode.new = true) := by
  refine ⟨?_, ?_, ?_⟩
  · intro m x
    have hiff : m.has x = true ↔ m.value &&& x.value = x.value := by
      simp [Mode.has]
    rw [hiff]
    constructor
    · intro h i hx
      have h2 := congrArg (fun t => t.testBit i) h
      simp only [Nat.testBit_and] at h2
      rw [hx, Bool.and_true] at h2
      exact h2
    · intro h
      apply Nat.eq_of_testBit_eq
      intro i
      rw [Nat.testBit_and]
      cases hx : x.value.testBit i
      · simp
      · simp [h i hx]
  · intro m
    simp [Mode.has]
  · intro m
    simp [Mode.has, Mode.new]

theorem has_containment_witness : (Mode.ofU32 7).value.testBit 0 = true :=
  (has_containment.1 (Mode.ofU32 7) (Mode.ofU32 5)).mp (by decide) 0 (by decide)

/-- C5, counterexample: with overlapping masks (USER and READ overlap in bit
8), composing `with_class_perm` and `without_class_perm` is not the identity
on a mode that already owned a bit of the intersection. -/
theorem with_without_class_perm_not_inverse :
    ((Mode.ofU32 0o400).with_class_perm USER READ).without_class_perm USER READ
      ≠ Mode.ofU32 0o400 := by decide

/-- C5, amended: the composition clears all bits of `cls &&& perm` (whether
previously present or newly added), i.e. it equals `without_class_perm`
alone; bits outside `cls &&& perm` (within the 32-bit value) are untouched;
and the composition is the identity exactly on modes owning no bit of
`cls &&& perm`. -/
theorem with_without_class_perm_amended :
    ∀ (m : Mode) (cls : Class) (perm : Permission), cls < 2 ^ 32 → perm < 2 ^ 32 →
    ((m.with_class_perm cls perm).without_class_perm cls perm
        = m.without_class_perm cls perm) ∧
    (∀ i, i < 32 → (cls &&& perm).testBit i = false →
      ((m.with_class_perm cls perm).without_class_perm cls perm).value.testBit i
        = m.value.testBit i) ∧
    (m.value &&& (cls &&& perm) = 0 → m.value < 2 ^ 32 →
      (m.with_class_perm cls perm).without_class_perm cls perm = m) := by
  intro m cls perm hcls hperm
  have hk : cls &&& perm < 2 ^ 32 := Nat.and_lt_two_pow cls hperm
  refine ⟨?_, ?_, ?_⟩
  · simp only [Mode.with_class_perm, Mode.without_class_perm, Mode.mk.injEq]
    apply Nat.eq_of_testBit_eq
    intro i
    rw [Nat.testBit_and, Nat.testBit_and, Nat.testBit_or,
      u32_not_testBit (cls &&& perm) hk i]
    cases hkb : (cls &&& perm).testBit i <;> simp [hkb]
  · intro i h32 hkb
    simp only [Mode.with_class_perm, Mode.without_class_perm]
    rw [Nat.testBit_and, Nat.testBit_or, u32_not_testBit (cls &&& perm) hk i, hkb]
    simp [h32]
  · intro hdisj hm32
    simp only [Mode.with_class_perm, Mode.without_class_perm]
    have hval : (m.value ||| (cls &&& perm)) &&& u32_not (cls &&& perm) = m.value := by
      apply Nat.eq_of_testBit_eq
      intro i
      rw [Nat.testBit_and, Nat.testBit_or, u32_not_testBit (cls &&& perm) hk i]
      by_cases hi : i < 32
      · cases hkb : (cls &&& perm).testBit i
        · simp [hkb, hi]
        · have h2 := congrArg (fun t => t.testBit i) hdisj
          simp only [Nat.zero_testBit] at h2
          rw [Nat.testBit_and, hkb, Bool.and_true] at h2
          simp [hkb, hi, h2]
      · have hmb : m.value.testBit i = false :=
          Nat.testBit_lt_two_pow
            (lt_of_lt_of_le hm32 (Nat.pow_le_pow_right (by norm_num) (by omega)))
        simp [hi, hmb]
    rw [hval]

theorem with_without_class_perm_amended_witness :
    ((Mode.ofU32 0o022).with_class_perm USER READ).without_class_perm USER READ
      = Mode.ofU32 0o022 :=
  (with_without_class_perm_amended (Mode.ofU32 0o022) USER READ
    (by decide) (by decide)).2.2 (by decide) (by decide)

/-- C6.  Bits above the 12 meaningful ones are preserved on construction
(no masking) and never interpreted: two modes agreeing on their low 12 bits
agree on `has` (for arguments within the 12 bits), `has_extra` (ditto),
`is_exe`, and the Display output. -/
theorem high_bits_never_interpreted :
    (∀ v : Nat, (Mode.ofU32 v).value = v) ∧
    (∀ m1 m2 : Mode, m1.value % 4096 = m2.value % 4096 →
      (∀ x : Mode, x.value < 4096 → m1.has x = m2.has x) ∧
      (∀ e : ExtraPermission, e < 4096 → m1.has_extra e = m2.has_extra e) ∧
      m1.is_exe = m2.is_exe ∧ m1.fmt = m2.fmt) :=
  ⟨fun _ => rfl, fun _ _ h =>
    ⟨fun x hx => has_congr h x hx, fun e he => has_extra_congr h e he,
      is_exe_congr h, fmt_congr h⟩⟩

theorem high_bits_never_interpreted_witness :
    (Mode.ofU32 (4096 + 0o644)).fmt = (Mode.ofU32 0o644).fmt :=
  ((high_bits_never_interpreted.2 (Mode.ofU32 (4096 + 0o644))
    (Mode.ofU32 0o644) (by decide)).2.2.2)

/-- C7.  `is_exe` is true iff at least one of bits 0, 3, 6 is set; it is
false for `Mode.new` and true for `Mode.all`. -/
theorem is_exe_iff_exec_bits :
    (∀ m : Mode, m.is_exe = true ↔
      (m.value.testBit 0 = true ∨ m.value.testBit 3 = true ∨
        m.value.testBit 6 = true)) ∧
    Mode.new.is_exe = false ∧ Mode.all.is_exe = true := by
  refine ⟨?_, by decide, by decide⟩
  intro m
  have key : ∀ r, r < 128 → ((r &&& 0o111 != 0) = true ↔
      (r.testBit 0 = true ∨ r.testBit 3 = true ∨ r.testBit 6 = true)) := by
    decide
  have h128 : (128 : Nat) = 2 ^ 7 := by norm_num
  have hmod : m.value &&& 0o111 = (m.value % 128) &&& 0o111 := by
    apply land_congr_pow 7
    · rw [← h128]
      omega
    · norm_num
  have hbit : ∀ i, i < 7 → (m.value % 128).testBit i = m.value.testBit i := by
    intro i hi
    rw [h128]
    exact testBit_mod_pow 7 m.value i hi
  unfold Mode.is_exe
  rw [hmod, ← hbit 0 (by norm_num), ← hbit 3 (by norm_num), ← hbit 6 (by norm_num)]
  exact key (m.value % 128) (Nat.mod_lt _ (by norm_num))

theorem is_exe_iff_exec_bits_witness : (Mode.ofU32 8).is_exe = true :=
  (is_exe_iff_exec_bits.1 (Mode.ofU32 8)).mpr (Or.inr (Or.inl (by decide)))

/-- C8.  The semantic builders coincide with the bitwise operators, and the
in-place operators leave the receiver with the pure operators' result. -/
theorem builders_match_operators : ∀ m o : Mode,
    m.with o = m ||| o ∧ m.without o = m &&& ~~~o ∧
    m.bitor_assign o = m ||| o ∧ m.bitand_assign o = m &&& o :=
  fun _ _ => ⟨rfl, rfl, rfl, rfl⟩

/-- C9.  Every successfully parsed mode has no bit outside the 12 meaningful
bits: its value is at most 0o7777. -/
theorem parse_value_in_meaningful_bits :
    ∀ (l : List Char) (m : Mode), Mode.parse l = .ok m → m.value ≤ 0o7777 := by
  intro l m h
  unfold Mode.parse at h
  rcases parse_ur_spec Mode.new l 0 (by decide) with
    ⟨m2, hok, hm2, _⟩ | ⟨c, j, _, herr, _⟩ | ⟨herr, _⟩ | ⟨herr, _⟩
  · rw [h] at hok
    injection hok with he
    rw [he]
    omega
  · rw [h] at herr
    simp at herr
  · rw [h] at herr
    simp at herr
  · rw [h] at herr
    simp at herr

theorem parse_value_in_meaningful_bits_witness :
    (Mode.ofU32 0o755).value ≤ 0o7777 :=
  parse_value_in_meaningful_bits ("rwxr-xr-x".toList) (Mode.ofU32 0o755)
    (by decide)

/-- C10.  `without_any_extra` clears exactly bits 9, 10, 11: they are false
afterwards, and every other bit of the 32-bit value is unchanged. -/
theorem without_any_extra_frame : ∀ (m : Mode) (i : Nat),
    ((i = 9 ∨ i = 10 ∨ i = 11) → (m.without_any_extra).value.testBit i = false) ∧
    (i < 32 → ¬(i = 9 ∨ i = 10 ∨ i = 11) →
      (m.without_any_extra).value.testBit i = m.value.testBit i) := by
  intro m i
  have hval : (m.without_any_extra).value = m.value &&& u32_not EXTRA := rfl
  constructor
  · rintro (rfl | rfl | rfl)
    · rw [hval, Nat.testBit_and,
        (by decide : (u32_not EXTRA).testBit 9 = false), Bool.and_false]
    · rw [hval, Nat.testBit_and,
        (by decide : (u32_not EXTRA).testBit 10 = false), Bool.and_false]
    · rw [hval, Nat.testBit_and,
        (by decide : (u32_not EXTRA).testBit 11 = false), Bool.and_false]
  · intro h32 hne
    rw [hval, Nat.testBit_and]
    have hb : (u32_not EXTRA).testBit i = true := by
      interval_cases i <;> first | decide | exact absurd (by omega) hne
    rw [hb, Bool.and_true]

theorem without_any_extra_frame_witness :
    ((Mode.ofU32 0o7777).without_any_extra).value.testBit 9 = false :=
  (without_any_extra_frame (Mode.ofU32 0o7777) 9).1 (Or.inl rfl)

set_option maxRecDepth 10000 in
set_option maxHeartbeats 4000000 in
theorem parse_fmt_lt : ∀ a, a < 64 → ∀ b, b < 64 →
    Mode.parse (Mode.fmt (Mode.ofU32 (64 * a + b))) = .ok (Mode.ofU32 (64 * a + b)) := by
  decide

/-- C1.  Format-then-parse round-trip: parsing the 9-character Display
output of any mode succeeds, and re-formatting the parsed mode reproduces
the output exactly. -/
theorem display_parse_roundtrip :
    ∀ m : Mode, ∃ m2, Mode.parse m.fmt = .ok m2 ∧ m2.fmt = m.fmt := by
  intro m
  have hmod : m.fmt = (Mode.ofU32 (m.value % 4096)).fmt :=
    fmt_congr (by show m.value % 4096 = m.value % 4096 % 4096; omega)
  refine ⟨Mode.ofU32 (m.value % 4096), ?_, hmod.symm⟩
  rw [hmod]
  have hb : m.value % 4096 < 4096 := Nat.mod_lt _ (by norm_num)
  have key := parse_fmt_lt (m.value % 4096 / 64) (by omega) (m.value % 4096 % 64)
    (by omega)
  have hsplit : 64 * (m.value % 4096 / 64) + m.value % 4096 % 64 = m.value % 4096 := by
    omega
  rw [hsplit] at key
  exact key

end Umask
